import Mathlib

/-!
Verification of the per-user knowledge-graph memory server
(`servers/memory/main.py`).

Python strings are modelled as lists of characters (`Str`), Python lists
as Lean lists, and each endpoint's graph transformation as a pure Lean
function translated from the corresponding handler body.  The durable
per-user store is modelled as a map from user id to optional file
content; the SHA-256 derivation of the file name from the user id is
abstracted away (the store is keyed by the user id directly), which is
faithful up to the injectivity of that derivation and is irrelevant to
the properties proved here.
-/

abbrev Str := List Char

/-- Model of the pydantic `Entity` model: `name`, `entityType`,
`observations`. -/
structure Entity where
  name : Str
  entityType : Str
  observations : List Str
deriving DecidableEq, Repr

/-- Model of the pydantic `Relation` model: `from` (serialized alias of
the `from_` attribute), `to`, `relationType`. -/
structure Relation where
  from_ : Str
  to_ : Str
  relationType : Str
deriving DecidableEq, Repr

/-- The identifying triple of a relation, as used by the set
comprehensions in `create_relations` and `delete_relations`. -/
def Relation.triple (r : Relation) : Str × Str × Str :=
  (r.from_, r.to_, r.relationType)

/-- Model of the pydantic `KnowledgeGraph` model. -/
structure KnowledgeGraph where
  entities : List Entity
  relations : List Relation
deriving DecidableEq, Repr

/-- The empty graph, returned by `read_graph_file` when the user's file
does not exist. -/
def emptyKnowledgeGraph : KnowledgeGraph := ⟨[], []⟩

/- ----------------------------------------------------------------
   Pure graph transformations, one per endpoint, translated from the
   handler bodies (the load/save wrapping is modelled further below).
   ---------------------------------------------------------------- -/

/-- `create_entities` (main.py lines 117-125), graph part:
`existing_names = {e.name for e in graph.entities}`;
`new_entities = [e for e in req.entities if e.name not in existing_names]`;
`graph.entities.extend(new_entities)`; returns `new_entities`. -/
def create_entities (graph : KnowledgeGraph) (entities : List Entity) :
    KnowledgeGraph × List Entity :=
  let existing_names := graph.entities.map Entity.name
  let new_entities := entities.filter (fun e => decide (e.name ∉ existing_names))
  ({ graph with entities := graph.entities ++ new_entities }, new_entities)

/-- `create_relations` (main.py lines 127-135), graph part:
duplicates of an already-stored `(from, to, relationType)` triple are
dropped, the remaining relations are appended and returned. -/
def create_relations (graph : KnowledgeGraph) (relations : List Relation) :
    KnowledgeGraph × List Relation :=
  let existing := graph.relations.map Relation.triple
  let newRels := relations.filter (fun r => decide (r.triple ∉ existing))
  ({ graph with relations := graph.relations ++ newRels }, newRels)

/-- One item of the `add_observations` request body. -/
structure ObservationItem where
  entityName : Str
  contents : List Str
deriving DecidableEq, Repr

/-- One item of the `delete_observations` request body. -/
structure DeletionItem where
  entityName : Str
  observations : List Str
deriving DecidableEq, Repr

/-- Helper for `add_observations`: the Python handler looks up the first
entity with the requested name (`next(e for e in graph.entities ...)`),
computes `added = [c for c in obs.contents if c not in entity.observations]`
once against the current observation list, and then extends that list in
place.  Returns `none` when no entity has the name (the handler raises
`HTTPException(404)` in that case). -/
def addToEntity (es : List Entity) (n : Str) (cs : List Str) :
    Option (List Entity × List Str) :=
  match es with
  | [] => none
  | e :: rest =>
    if e.name = n then
      let added := cs.filter (fun c => decide (c ∉ e.observations))
      some (({ e with observations := e.observations ++ added } : Entity) :: rest, added)
    else
      match addToEntity rest n cs with
      | none => none
      | some (rest', added) => some (e :: rest', added)

/-- `add_observations` (main.py lines 137-150), graph part: the items
are processed in order, each mutating the in-memory graph; the first
item whose `entityName` has no entity aborts with an `Entity ... not
found` error (modelled by returning that name in `Except.error`).  On
success, returns the new graph together with the per-item
`(entityName, addedObservations)` result list. -/
def add_observations (graph : KnowledgeGraph) :
    List ObservationItem → Except Str (KnowledgeGraph × List (Str × List Str))
  | [] => .ok (graph, [])
  | item :: rest =>
    match addToEntity graph.entities item.entityName item.contents with
    | none => .error item.entityName
    | some (es', added) =>
      match add_observations { graph with entities := es' } rest with
      | .error n => .error n
      | .ok (g', results) => .ok (g', (item.entityName, added) :: results)

/-- `delete_entities` (main.py lines 152-159), graph part: entities
whose name is listed are removed, and every relation whose `from` or
`to` endpoint is listed is removed. -/
def delete_entities (graph : KnowledgeGraph) (entityNames : List Str) :
    KnowledgeGraph :=
  { entities := graph.entities.filter (fun e => decide (e.name ∉ entityNames)),
    relations := graph.relations.filter
      (fun r => decide (r.from_ ∉ entityNames) && decide (r.to_ ∉ entityNames)) }

/-- Helper for `delete_observations`: the first entity with the given
name (if any) has the listed observation strings filtered out; when no
entity matches, the list is unchanged (the handler silently skips). -/
def delFromEntity (es : List Entity) (n : Str) (obs : List Str) : List Entity :=
  match es with
  | [] => []
  | e :: rest =>
    if e.name = n then
      ({ e with observations := e.observations.filter (fun o => decide (o ∉ obs)) } : Entity)
        :: rest
    else e :: delFromEntity rest n obs

/-- `delete_observations` (main.py lines 161-170), graph part: each
deletion item is applied in order; missing entities are silently
skipped. -/
def delete_observations (graph : KnowledgeGraph) :
    List DeletionItem → KnowledgeGraph
  | [] => graph
  | d :: rest =>
      delete_observations
        { graph with entities := delFromEntity graph.entities d.entityName d.observations }
        rest

/-- `delete_relations` (main.py lines 172-179), graph part: relations
whose triple appears among the request's triples are removed. -/
def delete_relations (graph : KnowledgeGraph) (relations : List Relation) :
    KnowledgeGraph :=
  let del_set := relations.map Relation.triple
  { graph with
    relations := graph.relations.filter (fun r => decide (r.triple ∉ del_set)) }

/-- Python `str.lower`, modelled characterwise. -/
def lowerStr (s : Str) : Str := s.map Char.toLower

/-- Python's substring test `needle in haystack`: `needle` occurs
contiguously inside `haystack`. -/
def strContains (haystack needle : Str) : Bool := decide (needle <:+: haystack)

/-- The per-entity match of `search_nodes` (main.py line 190):
`req.query.lower() in e.name.lower() or ... in e.entityType.lower() or
any(... in o.lower() for o in e.observations)`. -/
def matchesQuery (query : Str) (e : Entity) : Bool :=
  strContains (lowerStr e.name) (lowerStr query) ||
  strContains (lowerStr e.entityType) (lowerStr query) ||
  e.observations.any (fun o => strContains (lowerStr o) (lowerStr query))

/-- `search_nodes` (main.py lines 186-193), graph part: matching
entities, plus the relations both of whose endpoints are names of
matching entities. -/
def search_nodes (graph : KnowledgeGraph) (query : Str) : KnowledgeGraph :=
  let entities := graph.entities.filter (matchesQuery query)
  let names := entities.map Entity.name
  let relations := graph.relations.filter
    (fun r => decide (r.from_ ∈ names) && decide (r.to_ ∈ names))
  ⟨entities, relations⟩

/-- `open_nodes` (main.py lines 195-202), graph part: entities whose
name is among the requested names, plus the relations both of whose
endpoints are names of selected entities. -/
def open_nodes (graph : KnowledgeGraph) (names : List Str) : KnowledgeGraph :=
  let entities := graph.entities.filter (fun e => decide (e.name ∈ names))
  let sel := entities.map Entity.name
  let relations := graph.relations.filter
    (fun r => decide (r.from_ ∈ sel) && decide (r.to_ ∈ sel))
  ⟨entities, relations⟩

/- ----------------------------------------------------------------
   Well-formedness invariants (spec §3).
   ---------------------------------------------------------------- -/

/-- Spec §3 invariants: entity names are pairwise distinct and relation
triples are pairwise distinct. -/
def WellFormed (g : KnowledgeGraph) : Prop :=
  (g.entities.map Entity.name).Nodup ∧ (g.relations.map Relation.triple).Nodup

instance : DecidablePred WellFormed := fun g =>
  inferInstanceAs
    (Decidable ((g.entities.map Entity.name).Nodup ∧ (g.relations.map Relation.triple).Nodup))

/-- Every entity's observation list is duplicate-free (spec §3's
post-insert observation invariant). -/
def ObsNodup (g : KnowledgeGraph) : Prop :=
  ∀ e ∈ g.entities, e.observations.Nodup

instance : DecidablePred ObsNodup := fun g =>
  inferInstanceAs (Decidable (∀ e ∈ g.entities, e.observations.Nodup))

/-- The graph that ends up stored after an `add_observations` request:
on success the mutated graph is saved, on failure the handler raises
before `save_graph`, so the stored graph is unchanged. -/
def addObservationsStored (g : KnowledgeGraph) (items : List ObservationItem) :
    KnowledgeGraph :=
  match add_observations g items with
  | .ok (g', _) => g'
  | .error _ => g

/-- The first matching entity's observation list, mirroring the
`next(e for e in graph.entities if e.name == n)` lookups of the Python
handlers. -/
def obsOf (es : List Entity) (n : Str) : Option (List Str) :=
  (es.find? (fun e => decide (e.name = n))).map Entity.observations

/- ----------------------------------------------------------------
   RecordCodec: the line format written by `save_graph` and read back
   by `read_graph_file`.  `json.dumps`/`json.loads` of the Python
   standard library are modelled on the record shapes this server
   stores: one flat JSON object per line with the `", "` item and
   `": "` key separators `json.dumps` emits, strings escaped as
   `json.dumps` escapes them (the `ensure_ascii` escaping of characters
   above U+007E is modelled as the identity, which does not affect any
   decoded value).  `read_graph_file`'s decoder is modelled on exactly
   this grammar; a line outside it is a malformed record.
   ---------------------------------------------------------------- -/

/-- Lower-case hexadecimal digit, as in `json.dumps`'s `\u00XX`
escapes. -/
def hexDigit (n : Nat) : Char :=
  if n < 10 then Char.ofNat (48 + n) else Char.ofNat (87 + n)

/-- JSON string escaping of one character, as performed by
`json.dumps`: quote, backslash and the named control characters get
two-character escapes, the remaining control characters get `\u00XX`. -/
def escapeChar (c : Char) : Str :=
  if c = '"' then ['\\', '"']
  else if c = '\\' then ['\\', '\\']
  else if c = '\n' then ['\\', 'n']
  else if c = '\t' then ['\\', 't']
  else if c = '\r' then ['\\', 'r']
  else if c = '\x08' then ['\\', 'b']
  else if c = '\x0c' then ['\\', 'f']
  else if c.toNat < 32 then
    ['\\', 'u', '0', '0', hexDigit (c.toNat / 16), hexDigit (c.toNat % 16)]
  else [c]

def escapeStr (s : Str) : Str := (s.map escapeChar).flatten

/-- A JSON string literal: `"` + escaped body + `"`. -/
def encStr (s : Str) : Str := '"' :: (escapeStr s ++ ['"'])

/-- Array elements joined by `", "`, as `json.dumps` renders a list. -/
def encStrList : List Str → Str
  | [] => []
  | [s] => encStr s
  | s :: rest => encStr s ++ ',' :: ' ' :: encStrList rest

/-- A JSON array of strings. -/
def encArr (xs : List Str) : Str := '[' :: (encStrList xs ++ [']'])

/-- The characters `{"type": "entity", "name": `. -/
def entityPre : Str :=
  ['\x7b', '"', 't', 'y', 'p', 'e', '"', ':', ' ', '"', 'e', 'n', 't', 'i', 't', 'y', '"',
   ',', ' ', '"', 'n', 'a', 'm', 'e', '"', ':', ' ']

/-- The characters `, "entityType": `. -/
def entityTypeSep : Str :=
  [',', ' ', '"', 'e', 'n', 't', 'i', 't', 'y', 'T', 'y', 'p', 'e', '"', ':', ' ']

/-- The characters `, "observations": `. -/
def obsSep : Str :=
  [',', ' ', '"', 'o', 'b', 's', 'e', 'r', 'v', 'a', 't', 'i', 'o', 'n', 's', '"', ':', ' ']

/-- The characters `{"type": "relation", "from": `. -/
def relationPre : Str :=
  ['\x7b', '"', 't', 'y', 'p', 'e', '"', ':', ' ', '"', 'r', 'e', 'l', 'a', 't', 'i', 'o',
   'n', '"', ',', ' ', '"', 'f', 'r', 'o', 'm', '"', ':', ' ']

/-- The characters `, "to": `. -/
def toSep : Str := [',', ' ', '"', 't', 'o', '"', ':', ' ']

/-- The characters `, "relationType": `. -/
def relTypeSep : Str :=
  [',', ' ', '"', 'r', 'e', 'l', 'a', 't', 'i', 'o', 'n', 'T', 'y', 'p', 'e', '"', ':', ' ']

/-- `json.dumps({"type": "entity", **e.dict()})` (main.py line 73). -/
def encodeEntityLine (e : Entity) : Str :=
  entityPre ++ encStr e.name ++ entityTypeSep ++ encStr e.entityType ++ obsSep ++
    encArr e.observations ++ ['\x7d']

/-- `json.dumps({"type": "relation", **r.dict(by_alias=True)})`
(main.py line 74): the `from_` attribute is serialized under its alias
`from`. -/
def encodeRelationLine (r : Relation) : Str :=
  relationPre ++ encStr r.from_ ++ toSep ++ encStr r.to_ ++ relTypeSep ++
    encStr r.relationType ++ ['\x7d']

/-- `save_graph` (main.py lines 72-78): one record line per entity then
per relation, joined by `"\n"` and written as the whole file content. -/
def save_graph (g : KnowledgeGraph) : Str :=
  List.intercalate ['\n']
    (g.entities.map encodeEntityLine ++ g.relations.map encodeRelationLine)

/-- Value of a lower-case hexadecimal digit. -/
def hexVal (c : Char) : Option Nat :=
  if 48 ≤ c.toNat ∧ c.toNat ≤ 57 then some (c.toNat - 48)
  else if 97 ≤ c.toNat ∧ c.toNat ≤ 102 then some (c.toNat - 87)
  else none

/-- Decoding of a two-character escape `\e`. -/
def unescapeChar (e : Char) : Option Char :=
  if e = '"' then some '"'
  else if e = '\\' then some '\\'
  else if e = '/' then some '/'
  else if e = 'n' then some '\n'
  else if e = 't' then some '\t'
  else if e = 'r' then some '\r'
  else if e = 'b' then some '\x08'
  else if e = 'f' then some '\x0c'
  else none

/-- Parses the body of a JSON string literal up to and including the
closing quote, undoing the escapes of `escapeChar`; returns the decoded
string and the remaining input. -/
def parseStrBody : Str → Option (Str × Str)
  | [] => none
  | c :: rest =>
    if c = '"' then some ([], rest)
    else if c = '\\' then
      match rest with
      | [] => none
      | e :: rest2 =>
        if e = 'u' then
          match rest2 with
          | d1 :: d2 :: d3 :: d4 :: rest3 =>
            match hexVal d1, hexVal d2, hexVal d3, hexVal d4 with
            | some a, some b, some c2, some d =>
              (parseStrBody rest3).map
                (fun p => (Char.ofNat (((a * 16 + b) * 16 + c2) * 16 + d) :: p.1, p.2))
            | _, _, _, _ => none
          | _ => none
        else
          match unescapeChar e with
          | some u => (parseStrBody rest2).map (fun p => (u :: p.1, p.2))
          | none => none
    else (parseStrBody rest).map (fun p => (c :: p.1, p.2))

/-- Parses a complete JSON string literal. -/
def parseJStr : Str → Option (Str × Str)
  | '"' :: rest => parseStrBody rest
  | _ => none

/-- Consumes an expected literal prefix. -/
def stripPre : Str → Str → Option Str
  | [], s => some s
  | _ :: _, [] => none
  | p :: ps, c :: cs => if c = p then stripPre ps cs else none

/-- Parses the non-empty element list of a JSON array of strings, up to
and including the closing `]`; the fuel argument bounds the number of
elements. -/
def parseItems : Nat → Str → Option (List Str × Str)
  | 0, _ => none
  | fuel + 1, s =>
    match parseJStr s with
    | none => none
    | some (v, r) =>
      match r with
      | ']' :: r2 => some ([v], r2)
      | ',' :: ' ' :: r3 => (parseItems fuel r3).map (fun p => (v :: p.1, p.2))
      | _ => none

/-- Parses a JSON array of strings. -/
def parseStrArr : Str → Option (List Str × Str)
  | '[' :: ']' :: r => some ([], r)
  | '[' :: rest => parseItems (rest.length + 1) rest
  | _ => none

/-- Decoding of one stored line: `json.loads` followed by the
`item.get("type")` dispatch and pydantic model construction of
`read_graph_file` (main.py lines 64-69), on the record grammar
documented above; `none` is a malformed record, which makes the Python
loop raise. -/
def decodeLine (l : Str) : Option (Entity ⊕ Relation) :=
  match stripPre entityPre l with
  | some r1 =>
    match parseJStr r1 with
    | none => none
    | some (nm, r2) =>
      match stripPre entityTypeSep r2 with
      | none => none
      | some r3 =>
        match parseJStr r3 with
        | none => none
        | some (ty, r4) =>
          match stripPre obsSep r4 with
          | none => none
          | some r5 =>
            match parseStrArr r5 with
            | none => none
            | some (obs, r6) =>
              match r6 with
              | ['\x7d'] => some (.inl ⟨nm, ty, obs⟩)
              | _ => none
  | none =>
    match stripPre relationPre l with
    | none => none
    | some r1 =>
      match parseJStr r1 with
      | none => none
      | some (f, r2) =>
        match stripPre toSep r2 with
        | none => none
        | some r3 =>
          match parseJStr r3 with
          | none => none
          | some (t, r4) =>
            match stripPre relTypeSep r4 with
            | none => none
            | some r5 =>
              match parseJStr r5 with
              | none => none
              | some (rt, r6) =>
                match r6 with
                | ['\x7d'] => some (.inr ⟨f, t, rt⟩)
                | _ => none

/-- Python's default whitespace set, as used by `line.strip()`. -/
def isPySpace (c : Char) : Bool :=
  c = ' ' || c = '\t' || c = '\n' || c = '\r' || c = '\x0b' || c = '\x0c'

/-- A line filtered out by `[line for line in f if line.strip()]`. -/
def isBlankLine (l : Str) : Bool := l.all isPySpace

/-- The sequential decoding loop of `read_graph_file` (main.py lines
64-69): entities and relations are collected in file order; the first
malformed line aborts the whole load (the error carries that line's
content, which is all the raised `json.JSONDecodeError` is a function
of — the file line number is not tracked). -/
def parseLines : List Str → Except Str (List Entity × List Relation)
  | [] => .ok ([], [])
  | l :: ls =>
    match decodeLine l with
    | none => .error l
    | some (.inl e) =>
      match parseLines ls with
      | .error x => .error x
      | .ok (es, rs) => .ok (e :: es, rs)
    | some (.inr r) =>
      match parseLines ls with
      | .error x => .error x
      | .ok (es, rs) => .ok (es, r :: rs)

/-- `read_graph_file` on an existing file's content (main.py lines
60-70): split into lines, drop blank lines, decode the rest. -/
def read_graph_file (content : Str) : Except Str KnowledgeGraph :=
  match parseLines ((content.splitOn '\n').filter (fun l => !isBlankLine l)) with
  | .error x => .error x
  | .ok (es, rs) => .ok ⟨es, rs⟩

/-- `read_graph_file` including the existence check (main.py lines
57-59): a missing file is the empty graph. -/
def loadGraph (file : Option Str) : Except Str KnowledgeGraph :=
  match file with
  | none => .ok emptyKnowledgeGraph
  | some content => read_graph_file content

/-- The non-blank lines of a file content that are malformed records,
in file order. -/
def badLines (content : Str) : List Str :=
  ((content.splitOn '\n').filter (fun l => !isBlankLine l)).filter
    (fun l => decide (decodeLine l = none))

/-- The 1-based file line number of the line on which a load of
`content` aborts (the first non-blank malformed line), if any. -/
def firstBadLineNo (content : Str) : Option Nat :=
  ((content.splitOn '\n').findIdx?
    (fun l => !isBlankLine l && decide (decodeLine l = none))).map (· + 1)

/- ----------------------------------------------------------------
   The durable store: user id ↦ file content.  Every mutating endpoint
   is load → pure transformation → save; every failure happens before
   `save_graph`, so a failing call leaves the store untouched.
   ---------------------------------------------------------------- -/

def Store := Str → Option Str

/-- Endpoint `/create_entities` at the store level. -/
def create_entities_op (user : Str) (payload : List Entity) (st : Store) :
    Store × Except Str (List Entity) :=
  match loadGraph (st user) with
  | .error x => (st, .error x)
  | .ok g =>
    let p := create_entities g payload
    (Function.update st user (some (save_graph p.1)), .ok p.2)

/-- Endpoint `/add_observations` at the store level: the handler raises
(`HTTPException(404)` or a parse error) before reaching `save_graph`,
so on any failure the stored file is unchanged. -/
def add_observations_op (user : Str) (items : List ObservationItem) (st : Store) :
    Store × Except Str (List (Str × List Str)) :=
  match loadGraph (st user) with
  | .error x => (st, .error x)
  | .ok g =>
    match add_observations g items with
    | .error n => (st, .error n)
    | .ok (g', res) => (Function.update st user (some (save_graph g')), .ok res)

/-- Endpoint `/read_graph` at the store level (main.py lines 181-184):
it only reads. -/
def read_graph_op (user : Str) (st : Store) :
    Store × Except Str KnowledgeGraph :=
  (st, loadGraph (st user))

/-- Endpoint `/search_nodes` at the store level (main.py lines
186-193): it only reads. -/
def search_nodes_op (user : Str) (query : Str) (st : Store) :
    Store × Except Str KnowledgeGraph :=
  (st, (loadGraph (st user)).map (fun g => search_nodes g query))

/-- Endpoint `/open_nodes` at the store level (main.py lines 195-202):
it only reads. -/
def open_nodes_op (user : Str) (names : List Str) (st : Store) :
    Store × Except Str KnowledgeGraph :=
  (st, (loadGraph (st user)).map (fun g => open_nodes g names))

/- ----------------------------------------------------------------
   Concurrency model for two overlapping `/create_entities` requests on
   the same user.  Each request is the two observable storage actions of
   its handler: read the file, then write the transformed file.  The
   code has no lock, so any order of these four actions respecting each
   request's internal order can occur.
   ---------------------------------------------------------------- -/

inductive StepTag where
  | loadA | saveA | loadB | saveB
deriving DecidableEq, Repr

structure RunState where
  file : Option Str
  snapA : Option (Option Str)
  snapB : Option (Option Str)
deriving DecidableEq, Repr

/-- What one `/create_entities` handler writes, given the file content
it read: on a parse error it raises before saving. -/
def applyCreateToFile (payload : List Entity) (c : Option Str) : Option Str :=
  match loadGraph c with
  | .error _ => c
  | .ok g => some (save_graph (create_entities g payload).1)

def stepRun (pa pb : List Entity) (s : RunState) : StepTag → RunState
  | .loadA => { s with snapA := some s.file }
  | .saveA =>
    match s.snapA with
    | none => s
    | some c => { s with file := applyCreateToFile pa c }
  | .loadB => { s with snapB := some s.file }
  | .saveB =>
    match s.snapB with
    | none => s
    | some c => { s with file := applyCreateToFile pb c }

/-- Runs a schedule of the four storage actions from an absent file. -/
def runSched (pa pb : List Entity) (sched : List StepTag) : RunState :=
  sched.foldl (stepRun pa pb) ⟨none, none, none⟩

/-- A real execution of the two concurrent requests: each action occurs
exactly once and each request reads before it writes. -/
def validSchedule (sched : List StepTag) : Prop :=
  sched.Perm [.loadA, .saveA, .loadB, .saveB] ∧
  sched.indexOf StepTag.loadA < sched.indexOf StepTag.saveA ∧
  sched.indexOf StepTag.loadB < sched.indexOf StepTag.saveB

instance : DecidablePred validSchedule := fun sched =>
  inferInstanceAs (Decidable (_ ∧ _ ∧ _))

deriving instance DecidableEq for Except

/- Concrete fixtures used by witness theorems. -/

def entA : Entity := ⟨['a'], ['t'], [['o']]⟩

def entB : Entity := ⟨['b'], ['u'], []⟩

def relAB : Relation := ⟨['a'], ['b'], ['k']⟩

def relXY : Relation := ⟨['x'], ['y'], ['z']⟩

def gEx : KnowledgeGraph := ⟨[entA, entB], [relAB]⟩

/- ----------------------------------------------------------------
   Helper lemmas.
   ---------------------------------------------------------------- -/

theorem mem_filter_decide {α : Type _} (p : α → Prop) [DecidablePred p] (l : List α)
    (a : α) : a ∈ l.filter (fun x => decide (p x)) ↔ a ∈ l ∧ p a := by
  simp [List.mem_filter]

theorem nodup_map_of_filter {α β : Type _} (f : α → β) (p : α → Bool) (l : List α)
    (h : (l.map f).Nodup) : ((l.filter p).map f).Nodup :=
  h.sublist (List.Sublist.map f (List.filter_sublist l))

theorem create_entities_wf (g : KnowledgeGraph) (es : List Entity)
    (hg : WellFormed g) (hes : (es.map Entity.name).Nodup) :
    WellFormed (create_entities g es).1 := by
  obtain ⟨h1, h2⟩ := hg
  constructor
  · simp only [create_entities, List.map_append]
    rw [List.nodup_append]
    refine ⟨h1, nodup_map_of_filter _ _ _ hes, ?_⟩
    intro a ha hb
    simp only [List.mem_map] at hb
    obtain ⟨e, he, rfl⟩ := hb
    rw [mem_filter_decide] at he
    simp only [List.mem_map] at ha
    exact he.2 ha
  · simpa [create_entities] using h2

theorem create_relations_wf (g : KnowledgeGraph) (rs : List Relation)
    (hg : WellFormed g) (hrs : (rs.map Relation.triple).Nodup) :
    WellFormed (create_relations g rs).1 := by
  obtain ⟨h1, h2⟩ := hg
  constructor
  · simpa [create_relations] using h1
  · simp only [create_relations, List.map_append]
    rw [List.nodup_append]
    refine ⟨h2, nodup_map_of_filter _ _ _ hrs, ?_⟩
    intro a ha hb
    simp only [List.mem_map] at hb
    obtain ⟨r, hr, rfl⟩ := hb
    rw [mem_filter_decide] at hr
    simp only [List.mem_map] at ha
    exact hr.2 ha

theorem addToEntity_names {es : List Entity} {n : Str} {cs : List Str}
    {es' : List Entity} {added : List Str}
    (h : addToEntity es n cs = some (es', added)) :
    es'.map Entity.name = es.map Entity.name := by
  induction es generalizing es' added with
  | nil => simp [addToEntity] at h
  | cons e rest ih =>
    rw [addToEntity] at h
    split at h
    · cases h
      simp
    · split at h
      · cases h
      · rename_i rest' added' heq
        cases h
        simp [ih heq]

theorem addToEntity_isSome {es : List Entity} {n : Str} (cs : List Str)
    (hn : n ∈ es.map Entity.name) : addToEntity es n cs ≠ none := by
  induction es with
  | nil => simp at hn
  | cons e rest ih =>
    rw [addToEntity]
    split
    · simp
    · rename_i hne
      simp only [List.map_cons, List.mem_cons] at hn
      rcases hn with hn | hn
      · exact absurd hn.symm hne
      · intro hc
        split at hc
        · exact ih hn (by assumption)
        · cases hc

theorem add_observations_frame {items : List ObservationItem} {g g' : KnowledgeGraph}
    {res : List (Str × List Str)}
    (h : add_observations g items = .ok (g', res)) :
    g'.entities.map Entity.name = g.entities.map Entity.name ∧
      g'.relations = g.relations ∧
      res.map Prod.fst = items.map ObservationItem.entityName := by
  induction items generalizing g res with
  | nil =>
    rw [add_observations] at h
    cases h
    exact ⟨rfl, rfl, rfl⟩
  | cons item rest ih =>
    rw [add_observations] at h
    split at h
    · cases h
    · rename_i es' added heq
      split at h
      · cases h
      · rename_i g₁ results heq2
        cases h
        obtain ⟨ha, hb, hc⟩ := ih heq2
        refine ⟨?_, hb, ?_⟩
        · rw [ha]
          exact addToEntity_names heq
        · simp [hc]

theorem delFromEntity_names (es : List Entity) (n : Str) (obs : List Str) :
    (delFromEntity es n obs).map Entity.name = es.map Entity.name := by
  induction es with
  | nil => rfl
  | cons e rest ih =>
    rw [delFromEntity]
    split
    · simp
    · simp [ih]

theorem delete_observations_frame (dels : List DeletionItem) (g : KnowledgeGraph) :
    (delete_observations g dels).entities.map Entity.name =
        g.entities.map Entity.name ∧
      (delete_observations g dels).relations = g.relations := by
  induction dels generalizing g with
  | nil => exact ⟨rfl, rfl⟩
  | cons d rest ih =>
    rw [delete_observations]
    obtain ⟨ha, hb⟩ := ih { g with entities := delFromEntity g.entities d.entityName d.observations }
    exact ⟨ha.trans (delFromEntity_names _ _ _), hb⟩

theorem delete_entities_wf (g : KnowledgeGraph) (nms : List Str) (hg : WellFormed g) :
    WellFormed (delete_entities g nms) :=
  ⟨nodup_map_of_filter _ _ _ hg.1, nodup_map_of_filter _ _ _ hg.2⟩

theorem delete_relations_wf (g : KnowledgeGraph) (rs : List Relation) (hg : WellFormed g) :
    WellFormed (delete_relations g rs) :=
  ⟨hg.1, nodup_map_of_filter _ _ _ hg.2⟩

/- ----------------------------------------------------------------
   Claim C1.
   ---------------------------------------------------------------- -/

/-- Claim C1 as stated is false: when the input list of `create_entities`
itself contains two entities with the same name (or the input of
`create_relations` two relations with the same triple), the membership
test only consults the names that were already stored, so both
duplicates are appended and the uniqueness invariant is broken. -/
theorem C1_counterexample :
    WellFormed emptyKnowledgeGraph ∧
      ¬ WellFormed
        (create_entities emptyKnowledgeGraph [⟨['a'], [], []⟩, ⟨['a'], [], []⟩]).1 ∧
      ¬ WellFormed
        (create_relations emptyKnowledgeGraph
          [⟨['a'], ['b'], ['k']⟩, ⟨['a'], ['b'], ['k']⟩]).1 := by
  decide

/-- Claim C1 (amended): every operator (`create_entities`,
`create_relations`, `add_observations` — via the graph it leaves in the
store — `delete_entities`, `delete_observations`, `delete_relations`)
preserves the well-formedness invariant (entity names pairwise
distinct, relation triples pairwise distinct), provided the input list
of `create_entities` contains no two entities with the same name and
the input list of `create_relations` contains no two relations with the
same triple; without that proviso the two create operators append the
in-batch duplicates verbatim. -/
theorem C1_wellformed_preservation (g : KnowledgeGraph) (es : List Entity)
    (rs : List Relation) (items : List ObservationItem) (nms : List Str)
    (dels : List DeletionItem) (delRels : List Relation)
    (hg : WellFormed g) (hes : (es.map Entity.name).Nodup)
    (hrs : (rs.map Relation.triple).Nodup) :
    WellFormed (create_entities g es).1 ∧
      WellFormed (create_relations g rs).1 ∧
      WellFormed (addObservationsStored g items) ∧
      WellFormed (delete_entities g nms) ∧
      WellFormed (delete_observations g dels) ∧
      WellFormed (delete_relations g delRels) := by
  refine ⟨create_entities_wf g es hg hes, create_relations_wf g rs hg hrs, ?_,
    delete_entities_wf g nms hg, ?_, delete_relations_wf g delRels hg⟩
  · unfold addObservationsStored
    cases h : add_observations g items with
    | error n => exact hg
    | ok p =>
      obtain ⟨g', res⟩ := p
      obtain ⟨h1, h2, _⟩ := add_observations_frame h
      exact ⟨h1 ▸ hg.1, h2 ▸ hg.2⟩
  · obtain ⟨h1, h2⟩ := delete_observations_frame dels g
    exact ⟨h1 ▸ hg.1, h2 ▸ hg.2⟩

/-- Witness for C1: the amended preservation theorem applied to a
concrete well-formed graph and concrete duplicate-free payloads. -/
theorem C1_witness :
    WellFormed (create_entities gEx [⟨['c'], [], []⟩]).1 ∧
      WellFormed (create_relations gEx [relXY]).1 ∧
      WellFormed (addObservationsStored gEx [⟨['a'], [['p']]⟩]) ∧
      WellFormed (delete_entities gEx [['a']]) ∧
      WellFormed (delete_observations gEx [⟨['a'], [['o']]⟩]) ∧
      WellFormed (delete_relations gEx [relAB]) :=
  C1_wellformed_preservation gEx [⟨['c'], [], []⟩] [relXY] [⟨['a'], [['p']]⟩]
    [['a']] [⟨['a'], [['o']]⟩] [relAB] (by decide) (by decide) (by decide)

/- ----------------------------------------------------------------
   Claim C4.
   ---------------------------------------------------------------- -/

theorem create_entities_names_nodup (g : KnowledgeGraph) (es : List Entity)
    (hg : (g.entities.map Entity.name).Nodup) (hes : (es.map Entity.name).Nodup) :
    ((create_entities g es).1.entities.map Entity.name).Nodup := by
  simp only [create_entities, List.map_append]
  rw [List.nodup_append]
  refine ⟨hg, nodup_map_of_filter _ _ _ hes, ?_⟩
  intro a ha hb
  simp only [List.mem_map] at hb
  obtain ⟨e, he, rfl⟩ := hb
  rw [mem_filter_decide] at he
  simp only [List.mem_map] at ha
  exact he.2 ha

theorem length_filter_name_eq_one {l : List Entity} {n : Str}
    (hnd : (l.map Entity.name).Nodup) (hm : n ∈ l.map Entity.name) :
    (l.filter (fun x => decide (x.name = n))).length = 1 := by
  induction l with
  | nil => simp at hm
  | cons e rest ih =>
    simp only [List.map_cons, List.nodup_cons, List.mem_map] at hnd
    simp only [List.map_cons, List.mem_cons] at hm
    by_cases hn : e.name = n
    · rw [List.filter_cons_of_pos (by simpa using hn)]
      have hrest : rest.filter (fun x => decide (x.name = n)) = [] := by
        rw [List.filter_eq_nil_iff]
        intro x hx
        simp only [decide_eq_true_eq]
        intro hxe
        exact hnd.1 ⟨x, hx, hxe.trans hn.symm⟩
      simp [hrest]
    · rw [List.filter_cons_of_neg (by simpa using hn)]
      rcases hm with hm | hm
      · exact absurd hm.symm hn
      · exact ih hnd.2 hm

/-- Claim C4 as stated is false on input lists that repeat a name: both
copies pass the one-shot `existing_names` check of the first call and
are appended, so after calling twice with the same list the name `a` is
present twice (even though the second call does return `[]`). -/
theorem C4_counterexample :
    (create_entities
        (create_entities emptyKnowledgeGraph [⟨['a'], ['t'], []⟩, ⟨['a'], ['u'], []⟩]).1
        [⟨['a'], ['t'], []⟩, ⟨['a'], ['u'], []⟩]).2 = [] ∧
      ((create_entities
          (create_entities emptyKnowledgeGraph [⟨['a'], ['t'], []⟩, ⟨['a'], ['u'], []⟩]).1
          [⟨['a'], ['t'], []⟩, ⟨['a'], ['u'], []⟩]).1.entities.filter
            (fun x => decide (x.name = ['a']))).length = 2 := by
  decide

/-- Claim C4 (amended): `create_entities` drops the input entities whose
name is already stored, appends the remaining ones, and returns exactly
the appended list; the second of two identical calls always returns
`[]`, and — provided the input list repeats no name and the starting
graph's names are distinct — after the two calls each input name is
carried by exactly one stored entity. -/
theorem C4_create_entities_spec (g : KnowledgeGraph) (es : List Entity)
    (hg : (g.entities.map Entity.name).Nodup) (hes : (es.map Entity.name).Nodup) :
    (create_entities g es).1.entities = g.entities ++ (create_entities g es).2 ∧
      (∀ e, e ∈ (create_entities g es).2 ↔
        e ∈ es ∧ e.name ∉ g.entities.map Entity.name) ∧
      (create_entities (create_entities g es).1 es).2 = [] ∧
      (∀ e ∈ es,
        ((create_entities (create_entities g es).1 es).1.entities.filter
          (fun x => decide (x.name = e.name))).length = 1) := by
  have hmem : ∀ e, e ∈ (create_entities g es).2 ↔
      e ∈ es ∧ e.name ∉ g.entities.map Entity.name := by
    intro e
    show e ∈ es.filter (fun x => decide (x.name ∉ g.entities.map Entity.name)) ↔ _
    exact mem_filter_decide _ es e
  have hnames1 : ∀ e ∈ es, e.name ∈ (create_entities g es).1.entities.map Entity.name := by
    intro e he
    simp only [create_entities, List.map_append, List.mem_append]
    by_cases hn : e.name ∈ g.entities.map Entity.name
    · exact Or.inl hn
    · refine Or.inr (List.mem_map.mpr ⟨e, ?_, rfl⟩)
      exact (hmem e).mpr ⟨he, hn⟩
  have hsecond : (create_entities (create_entities g es).1 es).2 = [] := by
    show es.filter
      (fun x => decide (x.name ∉ (create_entities g es).1.entities.map Entity.name)) = []
    rw [List.filter_eq_nil_iff]
    intro e he
    simp only [decide_eq_true_eq, Decidable.not_not]
    exact hnames1 e he
  refine ⟨rfl, hmem, hsecond, ?_⟩
  intro e he
  have hg2 : (create_entities (create_entities g es).1 es).1.entities =
      (create_entities g es).1.entities := by
    have h : (create_entities (create_entities g es).1 es).1.entities =
        (create_entities g es).1.entities ++
          (create_entities (create_entities g es).1 es).2 := rfl
    rw [h, hsecond, List.append_nil]
  rw [hg2]
  exact length_filter_name_eq_one (create_entities_names_nodup g es hg hes) (hnames1 e he)

/-- Witness for C4: the amended theorem applied to the concrete graph
`gEx` and a duplicate-free payload. -/
theorem C4_witness :
    (create_entities gEx [⟨['c'], [], []⟩]).1.entities =
        gEx.entities ++ (create_entities gEx [⟨['c'], [], []⟩]).2 ∧
      (∀ e, e ∈ (create_entities gEx [⟨['c'], [], []⟩]).2 ↔
        e ∈ [(⟨['c'], [], []⟩ : Entity)] ∧ e.name ∉ gEx.entities.map Entity.name) ∧
      (create_entities (create_entities gEx [⟨['c'], [], []⟩]).1 [⟨['c'], [], []⟩]).2 = [] ∧
      (∀ e ∈ [(⟨['c'], [], []⟩ : Entity)],
        ((create_entities (create_entities gEx [⟨['c'], [], []⟩]).1
            [⟨['c'], [], []⟩]).1.entities.filter
          (fun x => decide (x.name = e.name))).length = 1) :=
  C4_create_entities_spec gEx [⟨['c'], [], []⟩] (by decide) (by decide)

/- ----------------------------------------------------------------
   Claim C5.
   ---------------------------------------------------------------- -/

/-- Claim C5: `delete_entities` removes exactly the entities whose name
is listed and exactly the relations with a listed endpoint; everything
else survives in its original order (the survivors form sublists of the
original lists), so names not present are silently ignored, and the
operation is a total function — it cannot fail. -/
theorem C5_delete_entities_spec (g : KnowledgeGraph) (nms : List Str) :
    (∀ e, e ∈ (delete_entities g nms).entities ↔ e ∈ g.entities ∧ e.name ∉ nms) ∧
      (∀ r, r ∈ (delete_entities g nms).relations ↔
        r ∈ g.relations ∧ r.from_ ∉ nms ∧ r.to_ ∉ nms) ∧
      (delete_entities g nms).entities.Sublist g.entities ∧
      (delete_entities g nms).relations.Sublist g.relations := by
  refine ⟨?_, ?_, List.filter_sublist _, List.filter_sublist _⟩
  · intro e
    show e ∈ g.entities.filter (fun e => decide (e.name ∉ nms)) ↔ _
    rw [List.mem_filter]
    simp
  · intro r
    show r ∈ g.relations.filter
      (fun r => decide (r.from_ ∉ nms) && decide (r.to_ ∉ nms)) ↔ _
    rw [List.mem_filter]
    simp [Bool.and_eq_true, and_assoc]

/-- Witness for C5: the deletion theorem applied to the concrete graph
`gEx` and the name list `["a"]`. -/
theorem C5_witness :
    (∀ e, e ∈ (delete_entities gEx [['a']]).entities ↔
        e ∈ gEx.entities ∧ e.name ∉ [['a']]) ∧
      (∀ r, r ∈ (delete_entities gEx [['a']]).relations ↔
        r ∈ gEx.relations ∧ r.from_ ∉ [['a']] ∧ r.to_ ∉ [['a']]) ∧
      (delete_entities gEx [['a']]).entities.Sublist gEx.entities ∧
      (delete_entities gEx [['a']]).relations.Sublist gEx.relations :=
  C5_delete_entities_spec gEx [['a']]

/- ----------------------------------------------------------------
   Claim C6.
   ---------------------------------------------------------------- -/

theorem nil_infix_any {α : Type _} (l : List α) : [] <:+: l := ⟨[], l, by simp⟩

/-- Claim C6: `search_nodes` returns exactly the entities for which the
lower-cased query occurs inside the lower-cased name, lower-cased
entity type, or some lower-cased observation, plus exactly the
relations both of whose endpoints are names of returned entities; the
empty query keeps every entity. -/
theorem C6_search_nodes_spec (g : KnowledgeGraph) (q : Str) :
    (∀ e, e ∈ (search_nodes g q).entities ↔ e ∈ g.entities ∧
        (lowerStr q <:+: lowerStr e.name ∨ lowerStr q <:+: lowerStr e.entityType ∨
          ∃ o ∈ e.observations, lowerStr q <:+: lowerStr o)) ∧
      (∀ r, r ∈ (search_nodes g q).relations ↔ r ∈ g.relations ∧
        r.from_ ∈ (search_nodes g q).entities.map Entity.name ∧
        r.to_ ∈ (search_nodes g q).entities.map Entity.name) ∧
      (q = [] → (search_nodes g q).entities = g.entities) := by
  refine ⟨?_, ?_, ?_⟩
  · intro e
    show e ∈ g.entities.filter (matchesQuery q) ↔ _
    rw [List.mem_filter]
    simp [matchesQuery, strContains, or_assoc]
  · intro r
    simp only [search_nodes, List.mem_filter, Bool.and_eq_true, decide_eq_true_eq]
  · intro hq
    subst hq
    show g.entities.filter (matchesQuery []) = g.entities
    rw [List.filter_eq_self]
    intro e _
    simp only [matchesQuery, strContains, lowerStr, List.map_nil, Bool.or_eq_true,
      decide_eq_true_eq]
    exact Or.inl (Or.inl (nil_infix_any _))

/-- Witness for C6: the search theorem applied to the concrete graph
`gEx` and the query `"o"`. -/
theorem C6_witness :
    (∀ e, e ∈ (search_nodes gEx ['o']).entities ↔ e ∈ gEx.entities ∧
        (lowerStr ['o'] <:+: lowerStr e.name ∨
          lowerStr ['o'] <:+: lowerStr e.entityType ∨
          ∃ o ∈ e.observations, lowerStr ['o'] <:+: lowerStr o)) ∧
      (∀ r, r ∈ (search_nodes gEx ['o']).relations ↔ r ∈ gEx.relations ∧
        r.from_ ∈ (search_nodes gEx ['o']).entities.map Entity.name ∧
        r.to_ ∈ (search_nodes gEx ['o']).entities.map Entity.name) ∧
      (['o'] = ([] : Str) → (search_nodes gEx ['o']).entities = gEx.entities) :=
  C6_search_nodes_spec gEx ['o']

/- ----------------------------------------------------------------
   Claim C3.
   ---------------------------------------------------------------- -/

theorem obsOf_cons (e : Entity) (rest : List Entity) (n : Str) :
    obsOf (e :: rest) n =
      if e.name = n then some e.observations else obsOf rest n := by
  by_cases h : e.name = n
  · simp [obsOf, List.find?_cons_of_pos, h]
  · simp [obsOf, List.find?_cons_of_neg, h]

theorem addToEntity_spec {es : List Entity} {n : Str} {cs : List Str}
    {es' : List Entity} {added : List Str}
    (h : addToEntity es n cs = some (es', added)) :
    ∃ old, obsOf es n = some old ∧
      added = cs.filter (fun c => decide (c ∉ old)) ∧
      obsOf es' n = some (old ++ added) ∧
      (∀ m, m ≠ n → obsOf es' m = obsOf es m) ∧
      (∀ e' ∈ es', e' ∈ es ∨
        ∃ e ∈ es, e'.observations = e.observations ++
          cs.filter (fun c => decide (c ∉ e.observations))) := by
  induction es generalizing es' added with
  | nil => simp [addToEntity] at h
  | cons e rest ih =>
    rw [addToEntity] at h
    split at h
    · rename_i he
      cases h
      refine ⟨e.observations, ?_, rfl, ?_, ?_, ?_⟩
      · rw [obsOf_cons, if_pos he]
      · rw [obsOf_cons]
        simp [he]
      · intro m hm
        rw [obsOf_cons, obsOf_cons]
        have hne : e.name ≠ m := fun hc => hm (hc.symm.trans he)
        simp only [if_neg hne]
      · intro e' he'
        rcases List.mem_cons.mp he' with rfl | he'
        · exact Or.inr ⟨e, List.mem_cons_self _ _, rfl⟩
        · exact Or.inl (List.mem_cons_of_mem _ he')
    · rename_i he
      split at h
      · cases h
      · rename_i rest' added' heq
        cases h
        obtain ⟨old, h1, h2, h3, h4, h5⟩ := ih heq
        refine ⟨old, ?_, h2, ?_, ?_, ?_⟩
        · rw [obsOf_cons, if_neg he]
          exact h1
        · rw [obsOf_cons, if_neg he]
          exact h3
        · intro m hm
          rw [obsOf_cons, obsOf_cons]
          by_cases hem : e.name = m
          · simp only [if_pos hem]
          · simp only [if_neg hem]
            exact h4 m hm
        · intro e' he'
          rcases List.mem_cons.mp he' with rfl | he'
          · exact Or.inl (List.mem_cons_self _ _)
          · rcases h5 e' he' with h' | ⟨e2, he2, hobs⟩
            · exact Or.inl (List.mem_cons_of_mem _ h')
            · exact Or.inr ⟨e2, List.mem_cons_of_mem _ he2, hobs⟩

theorem addToEntity_obs_nodup {es : List Entity} {n : Str} {cs : List Str}
    {es' : List Entity} {added : List Str}
    (h : addToEntity es n cs = some (es', added))
    (hes : ∀ e ∈ es, e.observations.Nodup) (hcs : cs.Nodup) :
    ∀ e' ∈ es', e'.observations.Nodup := by
  intro e' he'
  obtain ⟨old, _, _, _, _, hmem⟩ := addToEntity_spec h
  rcases hmem e' he' with h1 | ⟨e, he, hobs⟩
  · exact hes e' h1
  · rw [hobs, List.nodup_append]
    refine ⟨hes e he, hcs.filter _, ?_⟩
    intro a ha hb
    exact ((mem_filter_decide (fun c => c ∉ e.observations) cs a).mp hb).2 ha

/-- Claim C3 as stated is false when one item's `contents` repeats a
string: `added = [c for c in obs.contents if c not in entity.observations]`
is computed once against the pre-call observation list, so both copies
of `"x"` are appended and the entity ends with a duplicated observation
(both copies are also reported as newly added). -/
theorem C3_counterexample :
    add_observations ⟨[⟨['a'], ['t'], []⟩], []⟩ [⟨['a'], [['x'], ['x']]⟩] =
      .ok (⟨[⟨['a'], ['t'], [['x'], ['x']]⟩], []⟩, [(['a'], [['x'], ['x']])]) ∧
      ¬ ObsNodup ⟨[⟨['a'], ['t'], [['x'], ['x']]⟩], []⟩ := by
  decide

/-- Claim C3 (amended): when all referenced entities exist and — as the
counterexample forces — no single item's `contents` repeats a string,
`add_observations` succeeds; observation lists stay duplicate-free,
entity names and relations are untouched, the results are reported per
item in order, and each entity's final observation list is its original
list (a prefix, so already-present contents are dropped and nothing is
reordered) followed by exactly the concatenation of the added lists the
call reports for it, whose members are exactly the new strings from the
items addressed to it. -/
theorem C3_add_observations_spec :
    ∀ (items : List ObservationItem) (g : KnowledgeGraph),
      ObsNodup g →
      (∀ it ∈ items, it.contents.Nodup) →
      (∀ it ∈ items, it.entityName ∈ g.entities.map Entity.name) →
      ∃ g' res, add_observations g items = .ok (g', res) ∧
        ObsNodup g' ∧
        g'.entities.map Entity.name = g.entities.map Entity.name ∧
        g'.relations = g.relations ∧
        res.map Prod.fst = items.map ObservationItem.entityName ∧
        (∀ n old new, obsOf g.entities n = some old → obsOf g'.entities n = some new →
          old <+: new ∧
          (∀ s, s ∈ new ↔ s ∈ old ∨ ∃ it ∈ items, it.entityName = n ∧ s ∈ it.contents) ∧
          new = old ++
            (res.filterMap (fun p => if p.1 = n then some p.2 else none)).flatten) := by
  intro items
  induction items with
  | nil =>
    intro g hOb _ _
    refine ⟨g, [], rfl, hOb, rfl, rfl, rfl, ?_⟩
    intro n old new h1 h2
    rw [h1] at h2
    cases Option.some.inj h2
    refine ⟨List.prefix_rfl, ?_, by simp⟩
    intro s
    simp
  | cons item rest ih =>
    intro g hOb hc hex
    have hname : item.entityName ∈ g.entities.map Entity.name :=
      hex item (List.mem_cons_self _ _)
    cases haddTo : addToEntity g.entities item.entityName item.contents with
    | none => exact absurd haddTo (addToEntity_isSome _ hname)
    | some p =>
      obtain ⟨es1, added⟩ := p
      obtain ⟨old0, hold0, haddedEq, hnew0, hobsne, _⟩ := addToEntity_spec haddTo
      have hOb1 : ObsNodup ⟨es1, g.relations⟩ := fun e' he' =>
        addToEntity_obs_nodup haddTo hOb (hc item (List.mem_cons_self _ _)) e' he'
      have hc1 : ∀ it ∈ rest, it.contents.Nodup := fun it hit =>
        hc it (List.mem_cons_of_mem _ hit)
      have hex1 : ∀ it ∈ rest,
          it.entityName ∈ (⟨es1, g.relations⟩ : KnowledgeGraph).entities.map Entity.name := by
        intro it hit
        show it.entityName ∈ es1.map Entity.name
        rw [addToEntity_names haddTo]
        exact hex it (List.mem_cons_of_mem _ hit)
      obtain ⟨g', res', hok', hOb', hnames', hrel', hresmap', hmain'⟩ :=
        ih ⟨es1, g.relations⟩ hOb1 hc1 hex1
      have hnamesG : g'.entities.map Entity.name = g.entities.map Entity.name :=
        hnames'.trans (addToEntity_names haddTo)
      refine ⟨g', (item.entityName, added) :: res', ?_, hOb', hnamesG, hrel', ?_, ?_⟩
      · simp only [add_observations, haddTo, hok']
      · simp [hresmap']
      · intro n old new hOld hNew
        by_cases hn : n = item.entityName
        · subst hn
          rw [hold0] at hOld
          cases Option.some.inj hOld
          have h1 : obsOf (⟨es1, g.relations⟩ : KnowledgeGraph).entities item.entityName =
              some (old0 ++ added) := hnew0
          obtain ⟨hpre, hiff, hconcat⟩ :=
            hmain' item.entityName (old0 ++ added) new h1 hNew
          refine ⟨(List.prefix_append old0 added).trans hpre, ?_, ?_⟩
          · intro s
            have hs := hiff s
            constructor
            · intro hsnew
              rcases hs.mp hsnew with hs1 | ⟨it, hit, hitn, hits⟩
              · rcases List.mem_append.mp hs1 with h | h
                · exact Or.inl h
                · rw [haddedEq] at h
                  exact Or.inr ⟨item, List.mem_cons_self _ _, rfl,
                    ((mem_filter_decide _ _ _).mp h).1⟩
              · exact Or.inr ⟨it, List.mem_cons_of_mem _ hit, hitn, hits⟩
            · intro hsor
              rcases hsor with h | ⟨it, hit, hitn, hits⟩
              · exact hs.mpr (Or.inl (List.mem_append_left _ h))
              · rcases List.mem_cons.mp hit with rfl | hit
                · by_cases hsold : s ∈ old0
                  · exact hs.mpr (Or.inl (List.mem_append_left _ hsold))
                  · refine hs.mpr (Or.inl (List.mem_append_right _ ?_))
                    rw [haddedEq]
                    exact (mem_filter_decide _ _ _).mpr ⟨hits, hsold⟩
                · exact hs.mpr (Or.inr ⟨it, hit, hitn, hits⟩)
          · rw [hconcat]
            simp [List.filterMap_cons, List.append_assoc]
        · have h1 : obsOf (⟨es1, g.relations⟩ : KnowledgeGraph).entities n = some old := by
            show obsOf es1 n = some old
            rw [hobsne n hn]
            exact hOld
          obtain ⟨hpre, hiff, hconcat⟩ := hmain' n old new h1 hNew
          refine ⟨hpre, ?_, ?_⟩
          · intro s
            have hs := hiff s
            constructor
            · intro hsnew
              rcases hs.mp hsnew with h | ⟨it, hit, hitn, hits⟩
              · exact Or.inl h
              · exact Or.inr ⟨it, List.mem_cons_of_mem _ hit, hitn, hits⟩
            · intro hsor
              rcases hsor with h | ⟨it, hit, hitn, hits⟩
              · exact hs.mpr (Or.inl h)
              · rcases List.mem_cons.mp hit with rfl | hit
                · exact absurd hitn.symm hn
                · exact hs.mpr (Or.inr ⟨it, hit, hitn, hits⟩)
          · rw [hconcat]
            have hnone : (if item.entityName = n then some added else none) =
                (none : Option (List Str)) := if_neg (fun hcc => hn hcc.symm)
            simp [List.filterMap_cons, hnone]

/-- Witness for C3: the amended theorem applied to the concrete graph
`gEx` and one duplicate-free item addressed to the entity `"a"`. -/
theorem C3_witness :
    ∃ g' res, add_observations gEx [⟨['a'], [['p']]⟩] = .ok (g', res) ∧
      ObsNodup g' ∧
      g'.entities.map Entity.name = gEx.entities.map Entity.name ∧
      g'.relations = gEx.relations ∧
      res.map Prod.fst = [(⟨['a'], [['p']]⟩ : ObservationItem)].map ObservationItem.entityName ∧
      (∀ n old new, obsOf gEx.entities n = some old → obsOf g'.entities n = some new →
        old <+: new ∧
        (∀ s, s ∈ new ↔ s ∈ old ∨
          ∃ it ∈ [(⟨['a'], [['p']]⟩ : ObservationItem)], it.entityName = n ∧ s ∈ it.contents) ∧
        new = old ++
          (res.filterMap (fun p => if p.1 = n then some p.2 else none)).flatten) :=
  C3_add_observations_spec [⟨['a'], [['p']]⟩] gEx (by decide) (by decide) (by decide)

/- ----------------------------------------------------------------
   Claim C2.
   ---------------------------------------------------------------- -/

theorem addToEntity_eq_none {es : List Entity} {n : Str} (cs : List Str)
    (hn : n ∉ es.map Entity.name) : addToEntity es n cs = none := by
  induction es with
  | nil => rfl
  | cons e rest ih =>
    simp only [List.map_cons, List.mem_cons, not_or] at hn
    rw [addToEntity, if_neg (fun hc => hn.1 hc.symm), ih hn.2]

theorem add_observations_error_of_missing :
    ∀ (items : List ObservationItem) (g : KnowledgeGraph),
      (∃ it ∈ items, it.entityName ∉ g.entities.map Entity.name) →
      ∃ n, add_observations g items = .error n ∧
        (∃ it ∈ items, it.entityName = n) ∧ n ∉ g.entities.map Entity.name := by
  intro items
  induction items with
  | nil =>
    intro g hmiss
    simp at hmiss
  | cons item rest ih =>
    intro g hmiss
    by_cases hn : item.entityName ∈ g.entities.map Entity.name
    · cases haddTo : addToEntity g.entities item.entityName item.contents with
      | none => exact absurd haddTo (addToEntity_isSome _ hn)
      | some p =>
        obtain ⟨es1, added⟩ := p
        have hmiss1 : ∃ it ∈ rest,
            it.entityName ∉ (⟨es1, g.relations⟩ : KnowledgeGraph).entities.map Entity.name := by
          obtain ⟨it, hit, hmi⟩ := hmiss
          rcases List.mem_cons.mp hit with rfl | hit
          · exact absurd hn hmi
          · refine ⟨it, hit, ?_⟩
            show it.entityName ∉ es1.map Entity.name
            rw [addToEntity_names haddTo]
            exact hmi
        obtain ⟨n, herr, hin, hnm⟩ := ih ⟨es1, g.relations⟩ hmiss1
        refine ⟨n, ?_, ?_, ?_⟩
        · simp only [add_observations, haddTo, herr]
        · obtain ⟨it, hit, hiteq⟩ := hin
          exact ⟨it, List.mem_cons_of_mem _ hit, hiteq⟩
        · have : (⟨es1, g.relations⟩ : KnowledgeGraph).entities.map Entity.name =
              g.entities.map Entity.name := addToEntity_names haddTo
          rw [← this]
          exact hnm
    · refine ⟨item.entityName, ?_, ⟨item, List.mem_cons_self _ _, rfl⟩, hn⟩
      simp only [add_observations, addToEntity_eq_none item.contents hn]

/-- Claim C2: when an `add_observations` batch references a missing
entity, the endpoint returns the `Entity ... not found` error for a
referenced absent name and the durable store is left exactly as it was
for every user — the handler raises before `save_graph`, so the earlier
in-memory mutations of the batch are never persisted. -/
theorem C2_add_observations_aborts (st : Store) (user : Str)
    (items : List ObservationItem) (g : KnowledgeGraph)
    (hload : loadGraph (st user) = .ok g)
    (hmiss : ∃ it ∈ items, it.entityName ∉ g.entities.map Entity.name) :
    (add_observations_op user items st).1 = st ∧
      ∃ n, (add_observations_op user items st).2 = .error n ∧
        (∃ it ∈ items, it.entityName = n) ∧ n ∉ g.entities.map Entity.name := by
  obtain ⟨n, herr, hin, hnm⟩ := add_observations_error_of_missing items g hmiss
  constructor
  · simp only [add_observations_op, hload, herr]
  · refine ⟨n, ?_, hin, hnm⟩
    simp only [add_observations_op, hload, herr]

/-- Witness for C2: a concrete call referencing the absent entity `"z"`
against an empty store leaves the store untouched and errors with that
name. -/
theorem C2_witness :
    (add_observations_op ['u'] [⟨['z'], []⟩] (fun _ => none)).1 = (fun _ => none) ∧
      ∃ n, (add_observations_op ['u'] [⟨['z'], []⟩] (fun _ => none)).2 = .error n ∧
        (∃ it ∈ [(⟨['z'], []⟩ : ObservationItem)], it.entityName = n) ∧
        n ∉ emptyKnowledgeGraph.entities.map Entity.name :=
  C2_add_observations_aborts (fun _ => none) ['u'] [⟨['z'], []⟩] emptyKnowledgeGraph
    rfl (by decide)

/- ----------------------------------------------------------------
   Codec round-trip lemmas (for claims C7, C8, C9).
   ---------------------------------------------------------------- -/

theorem char_ofNat_toNat (c : Char) : Char.ofNat c.toNat = c := by
  cases c with
  | mk val valid =>
    have hv : (Char.toNat ⟨val, valid⟩).isValidChar := valid
    simp only [Char.ofNat, Char.toNat] at *
    rw [dif_pos hv]
    apply Char.ext
    simp only [Char.ofNatAux]
    cases val with
    | mk bv =>
      cases bv with
      | ofFin f => rfl

theorem hexVal_hexDigit (n : Nat) (h : n < 16) : hexVal (hexDigit n) = some n := by
  interval_cases n <;> rfl

theorem escapeStr_cons (c : Char) (cs : Str) :
    escapeStr (c :: cs) = escapeChar c ++ escapeStr cs := by
  simp [escapeStr]

theorem parseStrBody_escape (s rest : Str) :
    parseStrBody (escapeStr s ++ '"' :: rest) = some (s, rest) := by
  induction s with
  | nil =>
    show parseStrBody ((List.map escapeChar []).flatten ++ '"' :: rest) = some ([], rest)
    rw [List.map_nil, List.flatten_nil, List.nil_append, parseStrBody.eq_def]
    simp
  | cons c cs ih =>
    rw [escapeStr_cons, List.append_assoc]
    rw [escapeChar]
    split_ifs with h1 h2 h3 h4 h5 h6 h7 h8
    · subst h1
      rw [List.cons_append, List.cons_append, List.nil_append, parseStrBody.eq_def]
      simp [unescapeChar, ih]
    · subst h2
      rw [List.cons_append, List.cons_append, List.nil_append, parseStrBody.eq_def]
      simp [unescapeChar, ih]
    · subst h3
      rw [List.cons_append, List.cons_append, List.nil_append, parseStrBody.eq_def]
      simp [unescapeChar, ih]
    · subst h4
      rw [List.cons_append, List.cons_append, List.nil_append, parseStrBody.eq_def]
      simp [unescapeChar, ih]
    · subst h5
      rw [List.cons_append, List.cons_append, List.nil_append, parseStrBody.eq_def]
      simp [unescapeChar, ih]
    · subst h6
      rw [List.cons_append, List.cons_append, List.nil_append, parseStrBody.eq_def]
      simp [unescapeChar, ih]
    · subst h7
      rw [List.cons_append, List.cons_append, List.nil_append, parseStrBody.eq_def]
      simp [unescapeChar, ih]
    · have hd0 : hexVal '0' = some 0 := rfl
      have hd3 : hexVal (hexDigit (c.toNat / 16)) = some (c.toNat / 16) :=
        hexVal_hexDigit _ (by omega)
      have hd4 : hexVal (hexDigit (c.toNat % 16)) = some (c.toNat % 16) :=
        hexVal_hexDigit _ (by omega)
      have harith : c.toNat / 16 * 16 + c.toNat % 16 = c.toNat := by omega
      rw [parseStrBody.eq_def]
      simp [hd0, hd3, hd4, ih, harith, char_ofNat_toNat]
    · rw [List.singleton_append, parseStrBody.eq_def]
      simp [h1, h2, ih]

theorem parseJStr_encStr (s rest : Str) :
    parseJStr (encStr s ++ rest) = some (s, rest) := by
  have h : encStr s ++ rest = '"' :: (escapeStr s ++ '"' :: rest) := by
    simp [encStr]
  rw [h, parseJStr.eq_def]
  simp [parseStrBody_escape]

theorem stripPre_append (pat rest : Str) : stripPre pat (pat ++ rest) = some rest := by
  induction pat with
  | nil => rfl
  | cons p ps ih => simp [stripPre, ih]

theorem stripPre_ne (a : Str) {c d : Char} (hne : c ≠ d) (b s : Str) :
    stripPre (a ++ c :: b) (a ++ d :: s) = none := by
  induction a with
  | nil =>
    simp only [List.nil_append, stripPre]
    rw [if_neg (fun h => hne h.symm)]
  | cons x xs ih => simp [stripPre, ih]

theorem encStrList_cons_cons (x y : Str) (ys : List Str) :
    encStrList (x :: y :: ys) = encStr x ++ ',' :: ' ' :: encStrList (y :: ys) := rfl

theorem length_le_encStrList (xs : List Str) : xs.length ≤ (encStrList xs).length := by
  induction xs with
  | nil => simp [encStrList]
  | cons x ys ih =>
    cases ys with
    | nil => simp [encStrList, encStr]
    | cons y ys =>
      rw [encStrList_cons_cons]
      simp only [List.length_cons, List.length_append, encStr]
      simp only [List.length_cons] at ih ⊢
      omega

theorem parseItems_encStrList (x : Str) (xs : List Str) (rest : Str) :
    ∀ (fuel : Nat), (x :: xs).length ≤ fuel →
      parseItems fuel (encStrList (x :: xs) ++ ']' :: rest) = some (x :: xs, rest) := by
  induction xs generalizing x rest with
  | nil =>
    intro fuel hf
    cases fuel with
    | zero => simp at hf
    | succ fuel =>
      rw [parseItems, encStrList]
      rw [parseJStr_encStr]
      rfl
  | cons y ys ih =>
    intro fuel hf
    cases fuel with
    | zero => simp at hf
    | succ fuel =>
      rw [parseItems, encStrList_cons_cons]
      have hsh : (encStr x ++ ',' :: ' ' :: encStrList (y :: ys)) ++ ']' :: rest =
          encStr x ++ (',' :: ' ' :: (encStrList (y :: ys) ++ ']' :: rest)) := by
        simp
      rw [hsh, parseJStr_encStr]
      show Option.map (fun p => (x :: p.1, p.2))
        (parseItems fuel (encStrList (y :: ys) ++ ']' :: rest)) = some (x :: y :: ys, rest)
      rw [ih y rest fuel (by simp only [List.length_cons] at hf ⊢; omega)]
      rfl

theorem encStrList_cons_head (x : Str) (xs : List Str) :
    ∃ tl, encStrList (x :: xs) = '"' :: tl := by
  cases xs with
  | nil => exact ⟨escapeStr x ++ ['"'], rfl⟩
  | cons y ys => exact ⟨(escapeStr x ++ ['"']) ++ ',' :: ' ' :: encStrList (y :: ys), by
      rw [encStrList_cons_cons]
      simp [encStr]⟩

theorem parseStrArr_encArr (xs : List Str) (rest : Str) :
    parseStrArr (encArr xs ++ rest) = some (xs, rest) := by
  cases xs with
  | nil =>
    show parseStrArr ('[' :: (encStrList [] ++ [']']) ++ rest) = some ([], rest)
    rw [encStrList]
    rfl
  | cons x xs =>
    obtain ⟨tl, htl⟩ := encStrList_cons_head x xs
    have hshape : encArr (x :: xs) ++ rest = '[' :: '"' :: (tl ++ ']' :: rest) := by
      simp [encArr, htl]
    rw [hshape]
    have hred : parseStrArr ('[' :: '"' :: (tl ++ ']' :: rest)) =
        parseItems (('"' :: (tl ++ ']' :: rest)).length + 1) ('"' :: (tl ++ ']' :: rest)) :=
      rfl
    rw [hred]
    have hback : ('"' : Char) :: (tl ++ ']' :: rest) = encStrList (x :: xs) ++ ']' :: rest := by
      rw [htl]
      simp
    rw [hback]
    apply parseItems_encStrList
    have h1 := length_le_encStrList (x :: xs)
    have h2 : (encStrList (x :: xs) ++ ']' :: rest).length =
        (encStrList (x :: xs)).length + rest.length + 1 := by
      simp [List.length_append]
      omega
    rw [hback] at *
    simp only [List.length_cons] at *
    omega

theorem decodeLine_entity (e : Entity) : decodeLine (encodeEntityLine e) = some (.inl e) := by
  have h1 : encodeEntityLine e = entityPre ++ (encStr e.name ++ (entityTypeSep ++
      (encStr e.entityType ++ (obsSep ++ (encArr e.observations ++ ['\x7d']))))) := by
    simp [encodeEntityLine]
  rw [h1]
  simp only [decodeLine, stripPre_append, parseJStr_encStr, parseStrArr_encArr]

theorem decodeLine_relation (r : Relation) :
    decodeLine (encodeRelationLine r) = some (.inr r) := by
  have hnone : stripPre entityPre (encodeRelationLine r) = none := by
    have h1 : entityPre = (['\x7b', '"', 't', 'y', 'p', 'e', '"', ':', ' ', '"'] : Str) ++
        'e' :: (['n', 't', 'i', 't', 'y', '"', ',', ' ', '"', 'n', 'a', 'm', 'e', '"',
          ':', ' '] : Str) := rfl
    have h2 : encodeRelationLine r = (['\x7b', '"', 't', 'y', 'p', 'e', '"', ':', ' ',
        '"'] : Str) ++ 'r' :: ((['e', 'l', 'a', 't', 'i', 'o', 'n', '"', ',', ' ', '"',
          'f', 'r', 'o', 'm', '"', ':', ' '] : Str) ++ (encStr r.from_ ++ (toSep ++
            (encStr r.to_ ++ (relTypeSep ++ (encStr r.relationType ++ ['\x7d'])))))) := by
      simp [encodeRelationLine, relationPre]
    rw [h1, h2]
    exact stripPre_ne _ (by decide) _ _
  have h3 : encodeRelationLine r = relationPre ++ (encStr r.from_ ++ (toSep ++
      (encStr r.to_ ++ (relTypeSep ++ (encStr r.relationType ++ ['\x7d']))))) := by
    simp [encodeRelationLine]
  rw [decodeLine.eq_def, hnone, h3]
  simp only [stripPre_append, parseJStr_encStr]

theorem parseLines_encoded (es : List Entity) (rs : List Relation) :
    parseLines (es.map encodeEntityLine ++ rs.map encodeRelationLine) = .ok (es, rs) := by
  induction es with
  | nil =>
    induction rs with
    | nil => rfl
    | cons r rs ihr =>
      simp only [List.map_nil, List.nil_append, List.map_cons] at ihr ⊢
      rw [parseLines, decodeLine_relation, ihr]
  | cons e es ihe =>
    simp only [List.map_cons, List.cons_append] at ihe ⊢
    rw [parseLines, decodeLine_entity, ihe]

theorem hexDigit_ne_newline (n : Nat) (h : n < 16) : hexDigit n ≠ '\n' := by
  interval_cases n <;> decide

theorem escapeChar_no_newline (c : Char) : '\n' ∉ escapeChar c := by
  rw [escapeChar]
  split_ifs with h1 h2 h3 h4 h5 h6 h7 h8
  · decide
  · decide
  · decide
  · decide
  · decide
  · decide
  · decide
  · intro hmem
    simp only [List.mem_cons, List.not_mem_nil, or_false] at hmem
    rcases hmem with h | h | h | h | h | h
    · exact absurd h (by decide)
    · exact absurd h (by decide)
    · exact absurd h (by decide)
    · exact absurd h (by decide)
    · exact hexDigit_ne_newline (c.toNat / 16) (by omega) h.symm
    · exact hexDigit_ne_newline (c.toNat % 16) (by omega) h.symm
  · intro hmem
    simp only [List.mem_singleton] at hmem
    rw [hmem] at h3
    exact h3 rfl

theorem encStr_no_newline (s : Str) : '\n' ∉ encStr s := by
  intro hmem
  simp only [encStr, List.mem_cons, List.mem_append, List.mem_singleton] at hmem
  rcases hmem with h | h | h
  · exact absurd h (by decide)
  · simp only [escapeStr, List.mem_flatten, List.mem_map] at h
    obtain ⟨l, ⟨c, _, rfl⟩, hin⟩ := h
    exact escapeChar_no_newline c hin
  · exact absurd h (by decide)

theorem encStrList_no_newline (xs : List Str) : '\n' ∉ encStrList xs := by
  induction xs with
  | nil => simp [encStrList]
  | cons x ys ih =>
    cases ys with
    | nil =>
      show '\n' ∉ encStr x
      exact encStr_no_newline x
    | cons y ys =>
      rw [encStrList_cons_cons]
      intro hmem
      simp only [List.mem_append, List.mem_cons] at hmem
      rcases hmem with h | h | h | h
      · exact encStr_no_newline x h
      · exact absurd h (by decide)
      · exact absurd h (by decide)
      · exact ih h

theorem encodeEntityLine_no_newline (e : Entity) : '\n' ∉ encodeEntityLine e := by
  have h1 : '\n' ∉ entityPre := by decide
  have h2 : '\n' ∉ entityTypeSep := by decide
  have h3 : '\n' ∉ obsSep := by decide
  have h4 := encStr_no_newline e.name
  have h5 := encStr_no_newline e.entityType
  have h6 := encStrList_no_newline e.observations
  simp only [encodeEntityLine, encArr, List.append_assoc, List.mem_append, List.mem_cons,
    List.mem_singleton, List.not_mem_nil, or_false, not_or]
  exact ⟨h1, h4, h2, h5, h3, ⟨by decide, h6, by decide⟩, by decide⟩

theorem encodeRelationLine_no_newline (r : Relation) : '\n' ∉ encodeRelationLine r := by
  have h1 : '\n' ∉ relationPre := by decide
  have h2 : '\n' ∉ toSep := by decide
  have h3 : '\n' ∉ relTypeSep := by decide
  have h4 := encStr_no_newline r.from_
  have h5 := encStr_no_newline r.to_
  have h6 := encStr_no_newline r.relationType
  simp only [encodeRelationLine, List.append_assoc, List.mem_append, List.mem_cons,
    List.mem_singleton, List.not_mem_nil, or_false, not_or]
  refine ⟨h1, h4, h2, h5, h3, h6, by decide⟩

theorem encodeEntityLine_not_blank (e : Entity) :
    isBlankLine (encodeEntityLine e) = false := by
  have ht : ∃ t, encodeEntityLine e = '\x7b' :: t := ⟨_, rfl⟩
  obtain ⟨t, ht⟩ := ht
  rw [ht]
  simp [isBlankLine, isPySpace]

theorem encodeRelationLine_not_blank (r : Relation) :
    isBlankLine (encodeRelationLine r) = false := by
  have ht : ∃ t, encodeRelationLine r = '\x7b' :: t := ⟨_, rfl⟩
  obtain ⟨t, ht⟩ := ht
  rw [ht]
  simp [isBlankLine, isPySpace]

/-- The codec round trip at file level: loading the file written by
`save_graph` yields the saved graph exactly. -/
theorem read_save_roundtrip (g : KnowledgeGraph) :
    read_graph_file (save_graph g) = .ok g := by
  cases g with
  | mk es rs =>
    by_cases hnil : es.map encodeEntityLine ++ rs.map encodeRelationLine = []
    · obtain ⟨he, hr⟩ := List.append_eq_nil.mp hnil
      obtain rfl := List.map_eq_nil.mp he
      obtain rfl := List.map_eq_nil.mp hr
      rfl
    · have hnn : ∀ l ∈ es.map encodeEntityLine ++ rs.map encodeRelationLine, '\n' ∉ l := by
        intro l hl
        rcases List.mem_append.mp hl with h | h
        · obtain ⟨e, _, rfl⟩ := List.mem_map.mp h
          exact encodeEntityLine_no_newline e
        · obtain ⟨r, _, rfl⟩ := List.mem_map.mp h
          exact encodeRelationLine_no_newline r
      have hsplit : (save_graph ⟨es, rs⟩).splitOn '\n' =
          es.map encodeEntityLine ++ rs.map encodeRelationLine :=
        List.splitOn_intercalate _ '\n' hnn hnil
      have hfilter : (es.map encodeEntityLine ++ rs.map encodeRelationLine).filter
          (fun l => !isBlankLine l) =
          es.map encodeEntityLine ++ rs.map encodeRelationLine := by
        rw [List.filter_eq_self]
        intro l hl
        rcases List.mem_append.mp hl with h | h
        · obtain ⟨e, _, rfl⟩ := List.mem_map.mp h
          rw [encodeEntityLine_not_blank e]
          rfl
        · obtain ⟨r, _, rfl⟩ := List.mem_map.mp h
          rw [encodeRelationLine_not_blank r]
          rfl
      rw [read_graph_file, hsplit, hfilter, parseLines_encoded]

/- ----------------------------------------------------------------
   Claim C7.
   ---------------------------------------------------------------- -/

/-- Claim C7: persistence round-trips — for every graph (the empty one,
and graphs whose strings contain newlines, quotes, backslashes or other
special characters, all handled by the escaping of the line codec),
loading the file content written by `save_graph` returns exactly the
saved graph, field for field and even in the same order. -/
theorem C7_save_read_roundtrip (g : KnowledgeGraph) :
    read_graph_file (save_graph g) = Except.ok g :=
  read_save_roundtrip g

/- ----------------------------------------------------------------
   Claim C8.
   ---------------------------------------------------------------- -/

theorem parseLines_error :
    ∀ (ls : List Str) (l : Str) (bs : List Str),
      ls.filter (fun l => decide (decodeLine l = none)) = l :: bs →
      parseLines ls = .error l := by
  intro ls
  induction ls with
  | nil =>
    intro l bs h
    simp at h
  | cons x xs ih =>
    intro l bs h
    cases hd : decodeLine x with
    | none =>
      rw [List.filter_cons_of_pos (by simp [hd])] at h
      cases h
      simp only [parseLines, hd]
    | some v =>
      rw [List.filter_cons_of_neg (by simp [hd])] at h
      have hrec := ih l bs h
      cases v with
      | inl e => simp only [parseLines, hd, hrec]
      | inr r => simp only [parseLines, hd, hrec]

/-- Claim C8 as stated is false in its "identifies the offending line
number" part: the raised `json.JSONDecodeError` is a function of the
offending line's content alone (each line is parsed in isolation), so
the two files below — whose first malformed line is file line 1
resp. file line 2 — produce identical load errors, from which the line
number cannot be recovered. -/
theorem C8_counterexample :
    firstBadLineNo ['x'] = some 1 ∧
      firstBadLineNo (encodeEntityLine ⟨['a'], ['t'], []⟩ ++ '\n' :: ['x']) = some 2 ∧
      read_graph_file ['x'] =
        read_graph_file (encodeEntityLine ⟨['a'], ['t'], []⟩ ++ '\n' :: ['x']) ∧
      read_graph_file ['x'] = .error ['x'] := by
  refine ⟨rfl, rfl, rfl, rfl⟩

/-- Claim C8 (amended): a stored file containing a malformed
(undecodable) non-blank line always fails to load: the load aborts on
the first such line with an error carrying that line's content (not its
file line number, which the code does not track), and no record is
returned — no malformed line is ever silently skipped. -/
theorem C8_read_graph_file_aborts (content : Str)
    (h : ∃ l ∈ (content.splitOn '\n').filter (fun l => !isBlankLine l),
      decodeLine l = none) :
    ∃ l bs, badLines content = l :: bs ∧
      read_graph_file content = .error l ∧
      decodeLine l = none ∧ isBlankLine l = false := by
  obtain ⟨l0, hl0, hdec0⟩ := h
  have hne : badLines content ≠ [] := by
    intro hc
    have : l0 ∈ badLines content := by
      unfold badLines
      rw [List.mem_filter]
      exact ⟨hl0, by simp [hdec0]⟩
    rw [hc] at this
    simp at this
  cases hbad : badLines content with
  | nil => exact absurd hbad hne
  | cons l bs =>
    have hbad2 := hbad
    unfold badLines at hbad2
    have hmem : l ∈ badLines content := by
      rw [hbad]
      exact List.mem_cons_self _ _
    unfold badLines at hmem
    rw [List.mem_filter] at hmem
    obtain ⟨hmem1, hmem2⟩ := hmem
    rw [List.mem_filter] at hmem1
    refine ⟨l, bs, rfl, ?_, by simpa using hmem2, by simpa using hmem1.2⟩
    rw [read_graph_file, parseLines_error _ l bs hbad2]

/-- Witness for C8: the one-line file `x` is malformed, and loading it
errors with that line. -/
theorem C8_witness :
    ∃ l bs, badLines ['x'] = l :: bs ∧
      read_graph_file ['x'] = .error l ∧
      decodeLine l = none ∧ isBlankLine l = false :=
  C8_read_graph_file_aborts ['x'] (by decide)

/- ----------------------------------------------------------------
   Claim C9.
   ---------------------------------------------------------------- -/

/-- Claim C9 as stated is false: the code has no per-location lock, so
the two concurrent `/create_entities` cycles can interleave as
load-A, load-B, save-A, save-B — a valid execution in which both
requests complete — and request A's entity is absent from the final
stored graph (a lost update). -/
theorem C9_counterexample :
    validSchedule [StepTag.loadA, StepTag.loadB, StepTag.saveA, StepTag.saveB] ∧
      ∃ g, loadGraph (runSched [entA] [entB]
          [StepTag.loadA, StepTag.loadB, StepTag.saveA, StepTag.saveB]).file = .ok g ∧
        entB ∈ g.entities ∧ entA ∉ g.entities := by
  refine ⟨by decide, (create_entities emptyKnowledgeGraph [entB]).1, ?_, by decide, by decide⟩
  show loadGraph (some (save_graph (create_entities emptyKnowledgeGraph [entB]).1)) = _
  simp [loadGraph, read_save_roundtrip]

/-- Claim C9 (amended): the code has no concurrency guard, so
load→apply→persist cycles for one location are not serialized and
overlapping cycles can lose updates (see the counterexample); when the
two cycles do not overlap — the fully serialized schedule — both
effects are present in the final stored graph. -/
theorem C9_serialized_spec (ea eb : Entity) (hne : ea.name ≠ eb.name) :
    validSchedule [StepTag.loadA, StepTag.saveA, StepTag.loadB, StepTag.saveB] ∧
      ∃ g, loadGraph (runSched [ea] [eb]
          [StepTag.loadA, StepTag.saveA, StepTag.loadB, StepTag.saveB]).file = .ok g ∧
        ea ∈ g.entities ∧ eb ∈ g.entities := by
  constructor
  · decide
  · have ha1 : applyCreateToFile [ea] none =
        some (save_graph (create_entities emptyKnowledgeGraph [ea]).1) := rfl
    have happ : applyCreateToFile [eb]
        (some (save_graph (create_entities emptyKnowledgeGraph [ea]).1)) =
        some (save_graph
          (create_entities (create_entities emptyKnowledgeGraph [ea]).1 [eb]).1) := by
      simp only [applyCreateToFile, loadGraph, read_save_roundtrip]
    have hrun : runSched [ea] [eb]
        [StepTag.loadA, StepTag.saveA, StepTag.loadB, StepTag.saveB] =
        { file := applyCreateToFile [eb] (applyCreateToFile [ea] none),
          snapA := some none,
          snapB := some (applyCreateToFile [ea] none) } := by
      simp only [runSched, List.foldl, stepRun]
    refine ⟨(create_entities (create_entities emptyKnowledgeGraph [ea]).1 [eb]).1,
      ?_, ?_, ?_⟩
    · rw [hrun]
      dsimp only
      rw [ha1, happ]
      simp [loadGraph, read_save_roundtrip]
    · have h1 : ea ∈ (create_entities emptyKnowledgeGraph [ea]).1.entities := by
        simp [create_entities, emptyKnowledgeGraph]
      exact List.mem_append_left _ h1
    · have h2 : eb.name ∉
          (create_entities emptyKnowledgeGraph [ea]).1.entities.map Entity.name := by
        simp [create_entities, emptyKnowledgeGraph, Ne.symm hne]
      have h3 : eb ∈ List.filter
          (fun e => decide (e.name ∉
            (create_entities emptyKnowledgeGraph [ea]).1.entities.map Entity.name)) [eb] := by
        rw [List.filter_cons_of_pos (by simpa using h2)]
        exact List.mem_cons_self _ _
      exact List.mem_append_right _ h3

/-- Witness for C9: the serialized schedule with the concrete distinct
entities `entA` and `entB` keeps both. -/
theorem C9_witness :
    validSchedule [StepTag.loadA, StepTag.saveA, StepTag.loadB, StepTag.saveB] ∧
      ∃ g, loadGraph (runSched [entA] [entB]
          [StepTag.loadA, StepTag.saveA, StepTag.loadB, StepTag.saveB]).file = .ok g ∧
        entA ∈ g.entities ∧ entB ∈ g.entities :=
  C9_serialized_spec entA entB (by decide)

/- ----------------------------------------------------------------
   Claim C10.
   ---------------------------------------------------------------- -/

/-- Claim C10: the three read-shaped endpoints (`/read_graph`,
`/search_nodes`, `/open_nodes`) never write: after any of them the
whole store — this user's file and every other user's — is exactly what
it was. -/
theorem C10_readers_frame (st : Store) (user query : Str) (names : List Str) :
    (read_graph_op user st).1 = st ∧
      (search_nodes_op user query st).1 = st ∧
      (open_nodes_op user names st).1 = st :=
  ⟨rfl, rfl, rfl⟩
